import Mathlib

/-
Shallow embedding of the `shito` character-sheet TUI (Rust sources
`src/models.rs`, `src/dice.rs`, `src/db.rs`, `src/app.rs`) and proofs about
its documented behaviour.

Modelling conventions:
* Rust `String`/`&str` values are modelled as `List Char` (`Str`); the
  programs and claims under study only exercise ASCII text, so the ASCII
  case maps `Char.toLower`/`Char.toUpper` are a faithful model of Rust's
  `to_lowercase`/`to_uppercase`, and Lean's `Char.isWhitespace` of Rust's
  whitespace classification on that fragment.
* Rust `i32` is modelled as `Int`.  None of the verified operations is
  specified through wrap-around arithmetic; where Rust would panic on an
  out-of-range structural access (`Vec` indexing) the model returns
  `Option.none`, so a panic is observable as `none`.
* The SQLite store is modelled as the list of its rows; `list_characters`
  (`SELECT ... ORDER BY name ASC`) returns the rows stably sorted by name.
* The thread-local random generator of `rand` is modelled as a function
  `rng : Nat → Int → Int`, where `rng i s` is the `i`-th draw requested
  from the inclusive range `[1, s]` (`rng.gen_range(1..=sides)`); a valid
  generator satisfies `1 ≤ rng i s ∧ rng i s ≤ s` whenever `1 ≤ s`.
-/

abbrev Str := List Char

namespace Shito

/-- ASCII model of Rust `str::to_lowercase`. -/
def lower (s : Str) : Str := s.map Char.toLower

/-- ASCII model of Rust `str::to_uppercase` (used for the ability label). -/
def upper (s : Str) : Str := s.map Char.toUpper

/-- Model of Rust `str::trim`: drop whitespace from both ends. -/
def trim (s : Str) : Str :=
  ((s.dropWhile Char.isWhitespace).reverse.dropWhile Char.isWhitespace).reverse

/-- Helper for `splitWhitespace`: `acc` holds the current word reversed. -/
def splitWsAux : Str → Str → List Str
  | [], acc => if acc = [] then [] else [acc.reverse]
  | c :: cs, acc =>
    if c.isWhitespace then
      if acc = [] then splitWsAux cs [] else acc.reverse :: splitWsAux cs []
    else splitWsAux cs (c :: acc)

/-- Model of Rust `str::split_whitespace`: maximal runs of non-whitespace
characters, with no empty tokens. -/
def splitWhitespace (s : Str) : List Str := splitWsAux s []

/-- All-digit run to its value; `none` on empty or non-digit input. -/
def parseDigits (cs : Str) : Option Nat :=
  if cs = [] then none
  else if cs.all Char.isDigit then
    some (cs.foldl (fun a c => a * 10 + (c.toNat - 48)) 0)
  else none

/-- Model of Rust `str::parse::<i32>()`: optional sign, then a non-empty
all-digit run, value within the `i32` range. -/
def parseI32 (s : Str) : Option Int :=
  match s with
  | '+' :: rest =>
      (parseDigits rest).bind fun n =>
        if n ≤ 2147483647 then some (n : Int) else none
  | '-' :: rest =>
      (parseDigits rest).bind fun n =>
        if n ≤ 2147483648 then some (-(n : Int)) else none
  | cs =>
      (parseDigits cs).bind fun n =>
        if n ≤ 2147483647 then some (n : Int) else none

/-- Model of Rust `i32::clamp(lo, hi)` on its defined domain `lo ≤ hi`
(Rust panics when `lo > hi`; the claims verified below never leave the
defined domain). -/
def clampI (x lo hi : Int) : Int :=
  if x < lo then lo else if x > hi then hi else x

/-- Byte-wise lexicographic `≤` on names (SQLite's BINARY collation used
by `ORDER BY name ASC`; on ASCII, `Char` order equals byte order). -/
def lexLe : Str → Str → Bool
  | [], _ => true
  | _ :: _, [] => false
  | a :: as, b :: bs => if a = b then lexLe as bs else decide (a < b)

/-! ### `src/dice.rs` -/

/-- Positivity gate of `parse_dice` (src/dice.rs:23-26): the count and
sides parse results (`none` = a failed `parse().ok()?`, propagated) must
both be present and positive. -/
def parse_dice_from : Option Int → Option Int → Option (Int × Int)
  | some count, some sides =>
      if count ≤ 0 ∨ sides ≤ 0 then none else some (count, sides)
  | _, _ => none

/-- Shape gate of `parse_dice` (src/dice.rs:21-24): exactly two parts from
the `'d'` split; an empty left part means count 1, otherwise it is parsed
as an `i32`; the right part is parsed as an `i32`. -/
def parse_dice_parts : List Str → Option (Int × Int)
  | [p0, p1] =>
      parse_dice_from (if p0 = [] then some 1 else parseI32 p0) (parseI32 p1)
  | _ => none

/-- `parse_dice` (src/dice.rs:19-27): trim and lowercase the spec, split on
`'d'`, then apply the shape and positivity gates. -/
def parse_dice (spec : Str) : Option (Int × Int) :=
  parse_dice_parts ((lower (trim spec)).splitOn 'd')

/-- `roll` (src/dice.rs:3-17): parse the spec (defaulting to `1d20`), draw
`count` values from `[1, sides]` off the generator, and return
`(total + modifier, rolls)`. -/
def roll (rng : Nat → Int → Int) (dice : Str) (modifier : Int) :
    Int × List Int :=
  let cs := (parse_dice dice).getD (1, 20)
  let rolls := (List.range cs.1.toNat).map (fun i => rng i cs.2)
  (rolls.sum + modifier, rolls)

/-- A generator is valid when every requested draw from a non-empty range
`[1, s]` lands in that range. -/
def ValidRng (rng : Nat → Int → Int) : Prop :=
  ∀ i s, 1 ≤ s → 1 ≤ rng i s ∧ rng i s ≤ s

/-! ### `src/models.rs` -/

structure Character where
  id : Option Int
  name : Str
  class_name : Str
  race : Str
  level : Int
  hp_current : Int
  hp_max : Int
  armor_class : Int
  speed : Int
  strength : Int
  dexterity : Int
  constitution : Int
  intelligence : Int
  wisdom : Int
  charisma : Int
  spell_slots : List Int
  inventory : List Str
  skill_proficiencies : List Str
  notes : Option Str
deriving DecidableEq

/-- `Default for Character` (src/models.rs:29-53). -/
def defaultCharacter : Character where
  id := none
  name := "Unnamed".data
  class_name := "Fighter".data
  race := "Human".data
  level := 1
  hp_current := 10
  hp_max := 10
  armor_class := 10
  speed := 30
  strength := 10
  dexterity := 10
  constitution := 10
  intelligence := 10
  wisdom := 10
  charisma := 10
  spell_slots := List.replicate 9 0
  inventory := []
  skill_proficiencies := []
  notes := none

/-- `Character::ability_mod` (src/models.rs:56-58):
`(score - 10).div_euclid(2)`; Rust's `div_euclid` is Lean's `/` on `Int`
(Euclidean division). -/
def ability_mod (score : Int) : Int := (score - 10) / 2

/-- `Character::proficiency_bonus` (src/models.rs:67-70):
`2 + ((level - 1) / 4)`; Rust `/` on `i32` truncates toward zero
(`Int.tdiv`). -/
def proficiency_bonus (c : Character) : Int := 2 + Int.tdiv (c.level - 1) 4

/-- `Character::change_hp` (src/models.rs:76-78). -/
def change_hp (c : Character) (delta : Int) : Character :=
  { c with hp_current := clampI (c.hp_current + delta) 0 c.hp_max }

/-- `Character::adjust_spell_slot` (src/models.rs:96-102).  The Rust body
indexes `spell_slots[level - 1]` with no bounds check; an out-of-bounds
index panics, modelled as `none`. -/
def adjust_spell_slot (c : Character) (level : Nat) (delta : Int) :
    Option Character :=
  if 1 ≤ level ∧ level ≤ 9 then
    let idx := level - 1
    match c.spell_slots.get? idx with
    | some v =>
        some { c with spell_slots := c.spell_slots.set idx (max (v + delta) 0) }
    | none => none
  else
    some c

/-- `Character::ability_modifier_by_name` (src/models.rs:104-114). -/
def ability_modifier_by_name (c : Character) (name : Str) : Int :=
  let n := lower name
  if n = "str".data ∨ n = "strength".data then ability_mod c.strength
  else if n = "dex".data ∨ n = "dexterity".data then ability_mod c.dexterity
  else if n = "con".data ∨ n = "constitution".data then ability_mod c.constitution
  else if n = "int".data ∨ n = "intelligence".data then ability_mod c.intelligence
  else if n = "wis".data ∨ n = "wisdom".data then ability_mod c.wisdom
  else if n = "cha".data ∨ n = "charisma".data then ability_mod c.charisma
  else 0

/-- `all_skills` (src/models.rs:127-148): the fixed skill catalog,
`(skill name, governing ability)`. -/
def all_skills : List (Str × Str) :=
  [("acrobatics".data, "dex".data),
   ("animal handling".data, "wis".data),
   ("arcana".data, "int".data),
   ("athletics".data, "str".data),
   ("deception".data, "cha".data),
   ("history".data, "int".data),
   ("insight".data, "wis".data),
   ("intimidation".data, "cha".data),
   ("investigation".data, "int".data),
   ("medicine".data, "wis".data),
   ("nature".data, "int".data),
   ("perception".data, "wis".data),
   ("performance".data, "cha".data),
   ("persuasion".data, "cha".data),
   ("religion".data, "int".data),
   ("sleight of hand".data, "dex".data),
   ("stealth".data, "dex".data),
   ("survival".data, "wis".data)]

/-- First-match lookup used by `skill_to_ability`. -/
def skillLookup : List (Str × Str) → Str → Str × Str
  | [], _ => ("str".data, [])
  | (name, ability) :: rest, s =>
      if s = name then (ability, name) else skillLookup rest s

/-- `skill_to_ability` (src/models.rs:150-158): lowercase the query and scan
the catalog; on a miss return ability `"str"` and an empty key. -/
def skill_to_ability (skill : Str) : Str × Str :=
  skillLookup all_skills (lower skill)

/-- `Character::skill_modifier` (src/models.rs:116-124). -/
def skill_modifier (c : Character) (skill : Str) : Int :=
  let ak := skill_to_ability skill
  let base := ability_modifier_by_name c ak.1
  let proficient := c.skill_proficiencies.any (fun s => lower s = ak.2)
  base + if proficient then proficiency_bonus c else 0

/-- Decoding of the `spell_slots` column in `Db::list_characters` /
`Db::get_character` (src/db.rs:156, 194): the JSON parse result (`none`
standing for a parse error) is replaced by nine zero slots only on failure;
a successfully decoded list of any length is kept as-is. -/
def decodeSpellSlots (parsed : Option (List Int)) : List Int :=
  parsed.getD (List.replicate 9 0)

/-! ### `src/db.rs` -/

/-- The SQLite store, modelled as its list of rows. -/
structure Db where
  rows : List Character
deriving DecidableEq

/-- `Db::delete_character` (src/db.rs:122-126):
`DELETE FROM characters WHERE id = ?1`. -/
def Db.delete_character (db : Db) (i : Int) : Db :=
  ⟨db.rows.filter (fun r => r.id ≠ some i)⟩

/-- Stable insertion by name used to model `ORDER BY name ASC`. -/
def insertByName (c : Character) : List Character → List Character
  | [] => [c]
  | x :: xs =>
      if lexLe c.name x.name ∧ ¬ lexLe x.name c.name then c :: x :: xs
      else x :: insertByName c xs

/-- Stable sort by name (SQLite `ORDER BY name ASC`, BINARY collation). -/
def sortByName : List Character → List Character
  | [] => []
  | x :: xs => insertByName x (sortByName xs)

/-- `Db::list_characters` (src/db.rs:166-206): all rows, ordered by name
ascending. -/
def Db.list_characters (db : Db) : List Character :=
  sortByName db.rows

/-! ### `src/app.rs` -/

/-- `Mode` (src/app.rs:16-30). -/
inductive Mode where
  | List
  | Details
  | Edit
  | EditAddItem
  | CreateName
  | CreateClass
  | CreateRace
  | CreateAbilities
  | CreateHpMax
  | CreateAc
  | CreateSpeed
  | CreateSkills
  | Roll
deriving DecidableEq

/-- `NewCharDraft` (src/app.rs:514-525).  `abilities` holds the six scores
in STR DEX CON INT WIS CHA order. -/
structure NewCharDraft where
  name : Str := []
  class_name : Str := []
  race : Str := []
  abilities : List Int := List.replicate 6 0
  hp_max : Int := 0
  hp_current : Int := 0
  armor_class : Int := 0
  speed : Int := 0
  skill_proficiencies : List Str := []
deriving DecidableEq

/-- Result of the Enter handler on the CreateAbilities wizard step. -/
structure AbilitiesStep where
  mode : Mode
  wizard : Option NewCharDraft
  status : Str
deriving DecidableEq

/-- Enter in `Mode::CreateAbilities` (src/app.rs:190-198): tokenize the
input buffer on whitespace, keep the tokens that parse as `i32`
(`filter_map(|s| s.parse::<i32>().ok())`); if the surviving count is not 6,
stay in CreateAbilities with an error status; otherwise store the six
values positionally in the draft's STR..CHA array and advance to
CreateHpMax.  In the success branch the wizard is guaranteed six entries,
so the Rust indexing `nums[0]..nums[5]` is total; `getD _ 0` mirrors it. -/
def createAbilitiesEnter (input : Str) (wizard : Option NewCharDraft) :
    AbilitiesStep :=
  let nums := (splitWhitespace input).filterMap parseI32
  if nums.length ≠ 6 then
    ⟨Mode.CreateAbilities, wizard, "Please enter exactly 6 numbers".data⟩
  else
    ⟨Mode.CreateHpMax,
     wizard.map (fun w =>
       { w with abilities := [nums.getD 0 0, nums.getD 1 0, nums.getD 2 0,
                              nums.getD 3 0, nums.getD 4 0, nums.getD 5 0] }),
     "Enter HP Max (number)".data⟩

/-- `capitalize` (src/app.rs:501-504): uppercase the first character. -/
def capitalize (s : Str) : Str :=
  match s with
  | [] => []
  | c :: rest => c.toUpper :: rest

/-- Outcome of the Enter handler in `Mode::Roll`: the pieces from which the
status line `"<name> rolls <desc>: <rolls> total <total>"` is formatted,
plus the mode entered afterwards. -/
structure RollOutcome where
  name : Str
  desc : Str
  total : Int
  rolls : List Int
  mode : Mode

/-- The ability abbreviations checked in the Roll handler
(src/app.rs:345). -/
def abilityAbbrevs : List Str :=
  ["str".data, "dex".data, "con".data, "int".data, "wis".data, "cha".data]

/-- Enter in `Mode::Roll` (src/app.rs:330-359): trim and lowercase the
input; with a selected character, try in order a dice spec (modifier 0), a
skill-catalog name (1d20 + skill modifier, "<Skill> check"), an ability
abbreviation (1d20 + ability modifier, "<ABILITY> ability"), else a plain
1d20 labelled "d20"; with no selected character, a plain 1d20 under an
empty name.  The mode becomes List in every case. -/
def rollEnter (rng : Nat → Int → Int) (items : List Character)
    (selected : Nat) (input : Str) : RollOutcome :=
  let inp := lower (trim input)
  let name := ((items.get? selected).map Character.name).getD []
  match items.get? selected with
  | some c =>
    if (parse_dice inp).isSome then
      let tr := roll rng inp 0
      ⟨name, inp, tr.1, tr.2, Mode.List⟩
    else if all_skills.any (fun p => p.1 = inp) then
      let tr := roll rng "1d20".data (skill_modifier c inp)
      ⟨name, capitalize inp ++ " check".data, tr.1, tr.2, Mode.List⟩
    else if abilityAbbrevs.any (fun a => a = inp) then
      let tr := roll rng "1d20".data (ability_modifier_by_name c inp)
      ⟨name, upper inp ++ " ability".data, tr.1, tr.2, Mode.List⟩
    else
      let tr := roll rng "1d20".data 0
      ⟨name, "d20".data, tr.1, tr.2, Mode.List⟩
  | none =>
    let tr := roll rng "1d20".data 0
    ⟨name, inp, tr.1, tr.2, Mode.List⟩

/-- The List-mode state touched by the delete key: the store, the in-memory
list and the selection cursor. -/
structure ListState where
  db : Db
  items : List Character
  selected : Nat
deriving DecidableEq

/-- `App::reload` (src/app.rs:375-379): refresh `items` from the store and
clamp the cursor (`saturating_sub` on `Nat` is truncated subtraction). -/
def reload (s : ListState) : ListState :=
  let its := s.db.list_characters
  { s with
    items := its
    selected := if s.selected ≥ its.length then its.length - 1 else s.selected }

/-- Key `d` in `Mode::List` (src/app.rs:142-147): if a character is
selected, delete its id from the store (ids are `Option`al; `none` deletes
nothing) and reload; otherwise nothing happens. -/
def onKeyDelete (s : ListState) : ListState :=
  match s.items.get? s.selected with
  | some charac =>
      let db' := match charac.id with
        | some i => s.db.delete_character i
        | none => s.db
      reload { s with db := db' }
  | none => s

/-- A level-5 strength-10 character proficient in athletics, used as the
concrete instance named by the spec's skill-modifier scenario. -/
def sampleCharacter : Character :=
  { defaultCharacter with
    level := 5
    strength := 10
    skill_proficiencies := ["athletics".data] }

/-- A generator that always returns 1; trivially valid. -/
def constOneRng : Nat → Int → Int := fun _ _ => 1

/-! ## Theorems -/

/-- C5: for every character with `0 ≤ hp_current ≤ hp_max` and
`hp_max ≥ 1` and every integer `delta`, `change_hp` sets `hp_current` to
`clamp(hp_current + delta, 0, hp_max)` and changes no other field, and the
resulting `hp_current` lies in `[0, hp_max]`. -/
theorem change_hp_clamps (c : Character) (delta : Int)
    (h1 : 0 ≤ c.hp_current) (h2 : c.hp_current ≤ c.hp_max)
    (h3 : 1 ≤ c.hp_max) :
    change_hp c delta =
      { c with hp_current := clampI (c.hp_current + delta) 0 c.hp_max } ∧
    0 ≤ (change_hp c delta).hp_current ∧
    (change_hp c delta).hp_current ≤ c.hp_max := by
  refine ⟨rfl, ?_, ?_⟩ <;>
    · simp only [change_hp, clampI]
      split_ifs <;> omega

theorem change_hp_clamps_witness :
    change_hp defaultCharacter 100 =
      { defaultCharacter with
        hp_current :=
          clampI (defaultCharacter.hp_current + 100) 0
            defaultCharacter.hp_max } ∧
    0 ≤ (change_hp defaultCharacter 100).hp_current ∧
    (change_hp defaultCharacter 100).hp_current ≤ defaultCharacter.hp_max :=
  change_hp_clamps defaultCharacter 100 (by decide) (by decide) (by decide)

/-- C8: `ability_mod score` is the floor of `(score - 10) / 2` (rounding
toward negative infinity), is monotone non-decreasing, and takes the
values −1, 0, 5 at scores 9, 10, 20. -/
theorem ability_mod_spec (score other : Int) (h : score ≤ other) :
    ability_mod score = Int.fdiv (score - 10) 2 ∧
    ability_mod score ≤ ability_mod other ∧
    ability_mod 9 = -1 ∧ ability_mod 10 = 0 ∧ ability_mod 20 = 5 := by
  refine ⟨?_, ?_, by decide, by decide, by decide⟩
  · exact (Int.fdiv_eq_ediv _ (by norm_num)).symm
  · exact Int.ediv_le_ediv (by norm_num) (by omega)

theorem ability_mod_spec_witness :
    ability_mod 3 = Int.fdiv (3 - 10) 2 ∧
    ability_mod 3 ≤ ability_mod 7 ∧
    ability_mod 9 = -1 ∧ ability_mod 10 = 0 ∧ ability_mod 20 = 5 :=
  ability_mod_spec 3 7 (by decide)

/-- C9: for every character with `level ≥ 1`, the proficiency bonus is
`2 + floor((level − 1) / 4)`, i.e. 2 at levels 1–4, 3 at 5–8, 4 at 9–12,
5 at 13–16 and 6 at 17–20. -/
theorem proficiency_bonus_spec (c : Character) (h : 1 ≤ c.level) :
    proficiency_bonus c = 2 + Int.fdiv (c.level - 1) 4 ∧
    (c.level ≤ 4 → proficiency_bonus c = 2) ∧
    (5 ≤ c.level → c.level ≤ 8 → proficiency_bonus c = 3) ∧
    (9 ≤ c.level → c.level ≤ 12 → proficiency_bonus c = 4) ∧
    (13 ≤ c.level → c.level ≤ 16 → proficiency_bonus c = 5) ∧
    (17 ≤ c.level → c.level ≤ 20 → proficiency_bonus c = 6) := by
  have ht : Int.tdiv (c.level - 1) 4 = (c.level - 1) / 4 :=
    Int.tdiv_eq_ediv (by omega) (by norm_num)
  have hf : Int.fdiv (c.level - 1) 4 = (c.level - 1) / 4 :=
    Int.fdiv_eq_ediv _ (by norm_num)
  refine ⟨by simp only [proficiency_bonus, ht, hf], ?_, ?_, ?_, ?_, ?_⟩ <;>
    · intros
      simp only [proficiency_bonus, ht]
      omega

/-- Characterization of `parse_dice`: it succeeds exactly on inputs whose
normalized form splits on `'d'` into two parts, with an empty or
positive-integer count part and a positive-integer sides part. -/
lemma parse_dice_iff (spec : Str) (c n : Int) :
    parse_dice spec = some (c, n) ↔
      ∃ a b, (lower (trim spec)).splitOn 'd' = [a, b] ∧
        ((a = [] ∧ c = 1) ∨ parseI32 a = some c) ∧
        parseI32 b = some n ∧ 0 < c ∧ 0 < n := by
  unfold parse_dice parse_dice_parts
  split
  next x p0 p1 heq =>
    constructor
    · intro h
      unfold parse_dice_from at h
      split at h
      next count sides hcnt hsid =>
        by_cases hneg : count ≤ 0 ∨ sides ≤ 0
        · rw [if_pos hneg] at h
          exact Option.noConfusion h
        · rw [if_neg hneg] at h
          injection h with h'
          obtain ⟨rfl, rfl⟩ : count = c ∧ sides = n := by
            injection h' with h1 h2
            exact ⟨h1, h2⟩
          refine ⟨p0, p1, heq, ?_, hsid, by omega, by omega⟩
          by_cases ha : p0 = []
          · rw [ha, if_pos rfl] at hcnt
            injection hcnt with h1
            exact Or.inl ⟨ha, h1.symm⟩
          · rw [if_neg ha] at hcnt
            exact Or.inr hcnt
      next hmiss =>
        exact Option.noConfusion h
    · rintro ⟨a, b, hab, hcnt, hb, hc, hn⟩
      rw [heq] at hab
      injection hab with h1 h2
      injection h2 with h2 h3
      subst h1
      subst h2
      unfold parse_dice_from
      have hcount :
          (if p0 = [] then some (1 : Int) else parseI32 p0) = some c := by
        rcases hcnt with ⟨h0, rfl⟩ | hp
        · rw [if_pos h0]
        · have h0 : p0 ≠ [] := by
            intro h0
            rw [h0] at hp
            rw [show parseI32 ([] : Str) = none from by decide] at hp
            exact Option.noConfusion hp
          rw [if_neg h0, hp]
      rw [hcount, hb]
      show (if c ≤ 0 ∨ n ≤ 0 then none else some (c, n)) = some (c, n)
      rw [if_neg (by omega)]
  next x hne =>
    constructor
    · intro h
      exact Option.noConfusion h
    · rintro ⟨a, b, hab, -⟩
      exact (hne a b hab).elim

/-- A successful dice parse yields a positive count and positive sides. -/
lemma parse_dice_pos {s : Str} {p : Int × Int}
    (h : parse_dice s = some p) : 0 < p.1 ∧ 0 < p.2 := by
  obtain ⟨c, n⟩ := p
  obtain ⟨-, -, -, -, -, hc, hn⟩ := (parse_dice_iff s c n).mp h
  exact ⟨hc, hn⟩

/-- The count/sides pair actually used by `roll` (parse result, or the
`(1, 20)` default) always has positive count and sides. -/
lemma roll_pair_pos (s : Str) :
    0 < ((parse_dice s).getD (1, 20)).1 ∧
    0 < ((parse_dice s).getD (1, 20)).2 := by
  cases h : parse_dice s with
  | none => simp
  | some p => simpa using parse_dice_pos h

/-- C6: `parse_dice` lowercases and trims its input and succeeds exactly
when the text splits on `'d'` into two parts, with an empty count part
(count 1) or a positive-integer count, and a positive-integer sides part;
`"2d6" ↦ some (2, 6)`, `"d20" ↦ some (1, 20)`, and `"0d6"`, `"d0"`,
`"abc"`, `"1d6d6"` all yield `none`. -/
theorem parse_dice_spec (spec : Str) (c n : Int) :
    (parse_dice spec = some (c, n) ↔
      ∃ a b, (lower (trim spec)).splitOn 'd' = [a, b] ∧
        ((a = [] ∧ c = 1) ∨ parseI32 a = some c) ∧
        parseI32 b = some n ∧ 0 < c ∧ 0 < n) ∧
    parse_dice "2d6".data = some (2, 6) ∧
    parse_dice "d20".data = some (1, 20) ∧
    parse_dice "0d6".data = none ∧
    parse_dice "d0".data = none ∧
    parse_dice "abc".data = none ∧
    parse_dice "1d6d6".data = none :=
  ⟨parse_dice_iff spec c n, by decide, by decide, by decide, by decide,
   by decide, by decide⟩

theorem parse_dice_spec_witness : parse_dice "3d4".data = some (3, 4) :=
  (parse_dice_spec "3d4".data 3 4).1.mpr
    ⟨"3".data, "4".data, by decide, Or.inr (by decide), by decide,
     by decide, by decide⟩

/-- C7: `roll` uses the parsed `(count, sides)` pair (default `(1, 20)`)
and, for a valid generator, returns exactly `count` rolls each in
`[1, sides]`, with total equal to their sum plus the modifier; in
particular `roll "3d1" 0 = (3, [1,1,1])` for every valid generator. -/
theorem roll_spec (rng : Nat → Int → Int) (hrng : ValidRng rng)
    (dice : Str) (modifier : Int) :
    (roll rng dice modifier).2.length =
      ((parse_dice dice).getD (1, 20)).1.toNat ∧
    (∀ r ∈ (roll rng dice modifier).2,
        1 ≤ r ∧ r ≤ ((parse_dice dice).getD (1, 20)).2) ∧
    (roll rng dice modifier).1 = (roll rng dice modifier).2.sum + modifier ∧
    roll rng "3d1".data 0 = (3, [1, 1, 1]) := by
  have hside := (roll_pair_pos dice).2
  refine ⟨by simp [roll], ?_, rfl, ?_⟩
  · intro r hr
    simp only [roll, List.mem_map] at hr
    obtain ⟨i, -, rfl⟩ := hr
    exact hrng i _ hside
  · have h31 : parse_dice "3d1".data = some (3, 1) := by decide
    have h1 : ∀ i, rng i 1 = 1 := fun i =>
      le_antisymm (hrng i 1 le_rfl).2 (hrng i 1 le_rfl).1
    simp [roll, h31, List.range_succ, h1]

theorem roll_spec_witness :
    (roll constOneRng "2d6".data 5).2.length =
      ((parse_dice "2d6".data).getD (1, 20)).1.toNat ∧
    (∀ r ∈ (roll constOneRng "2d6".data 5).2,
        1 ≤ r ∧ r ≤ ((parse_dice "2d6".data).getD (1, 20)).2) ∧
    (roll constOneRng "2d6".data 5).1 =
      (roll constOneRng "2d6".data 5).2.sum + 5 ∧
    roll constOneRng "3d1".data 0 = (3, [1, 1, 1]) :=
  roll_spec constOneRng (fun _ s hs => ⟨le_refl 1, hs⟩) "2d6".data 5

theorem proficiency_bonus_spec_witness :
    proficiency_bonus sampleCharacter =
      2 + Int.fdiv (sampleCharacter.level - 1) 4 ∧
    (sampleCharacter.level ≤ 4 → proficiency_bonus sampleCharacter = 2) ∧
    (5 ≤ sampleCharacter.level → sampleCharacter.level ≤ 8 →
      proficiency_bonus sampleCharacter = 3) ∧
    (9 ≤ sampleCharacter.level → sampleCharacter.level ≤ 12 →
      proficiency_bonus sampleCharacter = 4) ∧
    (13 ≤ sampleCharacter.level → sampleCharacter.level ≤ 16 →
      proficiency_bonus sampleCharacter = 5) ∧
    (17 ≤ sampleCharacter.level → sampleCharacter.level ≤ 20 →
      proficiency_bonus sampleCharacter = 6) :=
  proficiency_bonus_spec sampleCharacter (by decide)

/-- On a duplicate-free catalog, the first-match scan finds the pair of a
member name. -/
lemma skillLookup_of_mem (l : List (Str × Str))
    (hnd : (l.map Prod.fst).Nodup) (nm ab : Str) (h : (nm, ab) ∈ l) :
    skillLookup l nm = (ab, nm) := by
  induction l with
  | nil => exact absurd h (List.not_mem_nil _)
  | cons hd rest ih =>
    obtain ⟨n0, a0⟩ := hd
    rw [List.map_cons, List.nodup_cons] at hnd
    rcases List.mem_cons.mp h with heq | htail
    · injection heq with h1 h2
      subst h1
      subst h2
      simp [skillLookup]
    · have hne : nm ≠ n0 := by
        rintro rfl
        exact hnd.1 (List.mem_map.mpr ⟨(nm, ab), htail, rfl⟩)
      simp only [skillLookup]
      rw [if_neg hne]
      exact ih hnd.2 htail

/-- The first-match scan falls through to `("str", "")` when the query
matches no catalog name. -/
lemma skillLookup_of_not_mem (l : List (Str × Str)) (s : Str)
    (h : ∀ p ∈ l, s ≠ p.1) : skillLookup l s = ("str".data, []) := by
  induction l with
  | nil => rfl
  | cons hd rest ih =>
    obtain ⟨n0, a0⟩ := hd
    simp only [skillLookup]
    rw [if_neg (h (n0, a0) (List.mem_cons_self _ _))]
    exact ih (fun p hp => h p (List.mem_cons_of_mem _ hp))

/-- C3: `skill_modifier` adds the governing ability's modifier from the
fixed catalog and, when the proficiency set contains the catalog skill
name case-insensitively, the proficiency bonus; a name outside the catalog
resolves to ability `"str"` with an empty proficiency key; concretely the
level-5 strength-10 athletics-proficient character has
`skill_modifier "athletics" = 3`. -/
theorem skill_modifier_spec (c : Character) (skill nm ab : Str) :
    ((nm, ab) ∈ all_skills → lower skill = nm →
      skill_modifier c skill =
        ability_modifier_by_name c ab +
          (if c.skill_proficiencies.any (fun s => lower s = nm) then
            proficiency_bonus c else 0)) ∧
    ((∀ p ∈ all_skills, lower skill ≠ p.1) →
      skill_modifier c skill =
        ability_mod c.strength +
          (if c.skill_proficiencies.any (fun s => lower s = ([] : Str)) then
            proficiency_bonus c else 0)) ∧
    skill_modifier sampleCharacter "athletics".data = 3 := by
  refine ⟨?_, ?_, by decide⟩
  · intro hmem hskill
    have hlook : skill_to_ability skill = (ab, nm) := by
      rw [skill_to_ability, hskill]
      exact skillLookup_of_mem all_skills (by decide) nm ab hmem
    simp only [skill_modifier, hlook]
  · intro hmiss
    have hlook : skill_to_ability skill = ("str".data, []) := by
      rw [skill_to_ability]
      exact skillLookup_of_not_mem all_skills (lower skill) hmiss
    simp only [skill_modifier, hlook]
    rfl

theorem skill_modifier_spec_witness :
    skill_modifier sampleCharacter "Stealth".data =
      ability_modifier_by_name sampleCharacter "dex".data +
        (if sampleCharacter.skill_proficiencies.any
            (fun s => lower s = "stealth".data) then
          proficiency_bonus sampleCharacter else 0) :=
  (skill_modifier_spec sampleCharacter "Stealth".data "stealth".data
      "dex".data).1 (by decide) (by decide)

/-- C10: `adjust_spell_slot` indexes `spell_slots[level − 1]` unchecked
for `level ∈ 1..9`: with at least 9 slots the access is in bounds and the
slot becomes `max(old + delta, 0)` with all other slots unchanged; on a
representable shorter-than-`level` slots list (e.g. a store row whose
slots text decodes to `[1, 2]`, kept as-is rather than replaced by the
9-zero default) the operation panics (`none`); levels outside 1..9 leave
the character unchanged. -/
theorem adjust_spell_slot_spec (c : Character) (level : Nat) (delta : Int) :
    (9 ≤ c.spell_slots.length → 1 ≤ level → level ≤ 9 →
      ∃ v, c.spell_slots.get? (level - 1) = some v ∧
        adjust_spell_slot c level delta =
          some { c with
                 spell_slots :=
                   c.spell_slots.set (level - 1) (max (v + delta) 0) } ∧
        ∀ j, j ≠ level - 1 →
          (c.spell_slots.set (level - 1) (max (v + delta) 0)).get? j =
            c.spell_slots.get? j) ∧
    (1 ≤ level → level ≤ 9 → c.spell_slots.length < level →
      adjust_spell_slot c level delta = none) ∧
    (¬ (1 ≤ level ∧ level ≤ 9) → adjust_spell_slot c level delta = some c) ∧
    decodeSpellSlots (some [1, 2]) = [1, 2] ∧
    adjust_spell_slot { defaultCharacter with spell_slots := [1, 2] } 5 1 =
      none := by
  refine ⟨?_, ?_, ?_, by decide, by decide⟩
  · intro h9 hl1 hl9
    cases hv : c.spell_slots.get? (level - 1) with
    | none =>
      rw [List.get?_eq_none] at hv
      omega
    | some v =>
      refine ⟨v, rfl, ?_, ?_⟩
      · simp only [adjust_spell_slot, if_pos (And.intro hl1 hl9), hv]
      · intro j hj
        exact List.get?_set_ne _ _ (Ne.symm hj)
  · intro hl1 hl9 hshort
    have hnone : c.spell_slots.get? (level - 1) = none :=
      List.get?_eq_none.mpr (by omega)
    simp only [adjust_spell_slot, if_pos (And.intro hl1 hl9), hnone]
  · intro h
    simp only [adjust_spell_slot, if_neg h]

theorem adjust_spell_slot_spec_witness :
    ∃ v, defaultCharacter.spell_slots.get? (3 - 1) = some v ∧
      adjust_spell_slot defaultCharacter 3 (-2) =
        some { defaultCharacter with
               spell_slots :=
                 defaultCharacter.spell_slots.set (3 - 1)
                   (max (v + (-2)) 0) } ∧
      ∀ j, j ≠ 3 - 1 →
        (defaultCharacter.spell_slots.set (3 - 1)
            (max (v + (-2)) 0)).get? j =
          defaultCharacter.spell_slots.get? j :=
  (adjust_spell_slot_spec defaultCharacter 3 (-2)).1 (by decide) (by decide)
    (by decide)

/-- C1, counterexample: the input `"1 2 3 4 5 6 x"` contains the
non-numeric token `"x"`, which the claim says forces a rejection, yet the
CreateAbilities Enter handler advances to CreateHpMax because
`filter_map` silently drops the unparseable token and six numbers
survive. -/
theorem createAbilities_nonnumeric_advances :
    "x".data ∈ splitWhitespace "1 2 3 4 5 6 x".data ∧
    parseI32 "x".data = none ∧
    (splitWhitespace "1 2 3 4 5 6 x".data).length = 7 ∧
    (createAbilitiesEnter "1 2 3 4 5 6 x".data
        (some ({} : NewCharDraft))).mode = Mode.CreateHpMax := by
  decide

/-- C1, amended: Enter on CreateAbilities advances (to CreateHpMax, with
the six parsed values stored positionally as STR..CHA) exactly when the
whitespace-separated tokens that successfully parse as `i32` number six;
tokens that fail to parse are silently dropped, and any other count of
parsed numbers re-prompts with an error status, staying in
CreateAbilities. -/
theorem createAbilitiesEnter_spec (input : Str)
    (w : Option NewCharDraft) :
    (∀ a b c d e f,
      (splitWhitespace input).filterMap parseI32 = [a, b, c, d, e, f] →
      createAbilitiesEnter input w =
        ⟨Mode.CreateHpMax,
         w.map (fun d0 => { d0 with abilities := [a, b, c, d, e, f] }),
         "Enter HP Max (number)".data⟩) ∧
    (((splitWhitespace input).filterMap parseI32).length ≠ 6 →
      createAbilitiesEnter input w =
        ⟨Mode.CreateAbilities, w, "Please enter exactly 6 numbers".data⟩) := by
  constructor
  · intro a b c d e f h
    simp only [createAbilitiesEnter, h]
    rfl
  · intro h
    simp only [createAbilitiesEnter, if_pos h]

theorem createAbilitiesEnter_spec_witness :
    createAbilitiesEnter "15 14 13 12 10 8".data
        (some ({} : NewCharDraft)) =
      ⟨Mode.CreateHpMax,
       (some ({} : NewCharDraft)).map
         (fun d0 => { d0 with abilities := [15, 14, 13, 12, 10, 8] }),
       "Enter HP Max (number)".data⟩ :=
  (createAbilitiesEnter_spec "15 14 13 12 10 8".data
      (some ({} : NewCharDraft))).1 15 14 13 12 10 8 (by decide)

lemma mem_insertByName {a c : Character} {l : List Character} :
    a ∈ insertByName c l ↔ a = c ∨ a ∈ l := by
  induction l with
  | nil => simp [insertByName]
  | cons x xs ih =>
    simp only [insertByName]
    split
    · simp [List.mem_cons]
    · simp only [List.mem_cons, ih]
      tauto

lemma mem_sortByName {a : Character} {l : List Character} :
    a ∈ sortByName l ↔ a ∈ l := by
  induction l with
  | nil => simp [sortByName]
  | cons x xs ih =>
    simp only [sortByName, mem_insertByName, ih, List.mem_cons]

/-- After any reload the cursor is strictly inside the refreshed list, or
the list is empty and the cursor is 0. -/
lemma reload_bounds (s : ListState) :
    (reload s).selected < (reload s).items.length ∨
      ((reload s).items = [] ∧ (reload s).selected = 0) := by
  simp only [reload]
  by_cases h0 : s.db.list_characters.length = 0
  · right
    refine ⟨List.length_eq_zero.mp h0, ?_⟩
    rw [if_pos (by omega)]
    omega
  · left
    split
    · omega
    · omega

/-- Sample data for the delete-key scenario. -/
def sampleA : Character :=
  { defaultCharacter with id := some 1, name := "Alice".data }

def sampleB : Character :=
  { defaultCharacter with id := some 2, name := "Bob".data }

def sampleListState : ListState :=
  ⟨⟨[sampleA, sampleB]⟩, [sampleA, sampleB], 1⟩

/-- C4: the delete key removes the selected character's row from the
store, reloads the in-memory list from the store (so no row with the
deleted id remains in it), and reselects within bounds: afterwards the
cursor is below the new length, or the list is empty and the cursor is 0,
so the selection never indexes out of bounds. -/
theorem onKeyDelete_spec (s : ListState)
    (h : s.selected < s.items.length ∨ (s.items = [] ∧ s.selected = 0)) :
    ((onKeyDelete s).selected < (onKeyDelete s).items.length ∨
      ((onKeyDelete s).items = [] ∧ (onKeyDelete s).selected = 0)) ∧
    (∀ ch, s.items.get? s.selected = some ch → ∀ i, ch.id = some i →
      (onKeyDelete s).db.rows =
        s.db.rows.filter (fun r => r.id ≠ some i) ∧
      (onKeyDelete s).items = (onKeyDelete s).db.list_characters ∧
      ∀ r ∈ (onKeyDelete s).items, r.id ≠ some i) := by
  cases hc : s.items.get? s.selected with
  | none =>
    have hs : onKeyDelete s = s := by
      simp only [onKeyDelete, hc]
    have hlen : s.items.length ≤ s.selected := List.get?_eq_none.mp hc
    constructor
    · rw [hs]
      rcases h with hlt | ⟨hnil, hsel⟩
      · omega
      · exact Or.inr ⟨hnil, hsel⟩
    · intro ch hch
      exact Option.noConfusion hch
  | some ch0 =>
    have hs : onKeyDelete s =
        reload { s with
                 db := match ch0.id with
                   | some i => s.db.delete_character i
                   | none => s.db } := by
      simp only [onKeyDelete, hc]
    refine ⟨by rw [hs]; exact reload_bounds _, ?_⟩
    intro ch hch i hid
    injection hch with hch
    subst hch
    rw [hs]
    simp only [hid]
    refine ⟨rfl, rfl, ?_⟩
    intro r hr
    have hr' : r ∈ (s.db.delete_character i).rows := by
      have := mem_sortByName.mp hr
      exact this
    simp only [Db.delete_character, List.mem_filter, decide_eq_true_iff]
      at hr'
    exact hr'.2

theorem onKeyDelete_spec_witness :
    ((onKeyDelete sampleListState).selected <
        (onKeyDelete sampleListState).items.length ∨
      ((onKeyDelete sampleListState).items = [] ∧
        (onKeyDelete sampleListState).selected = 0)) ∧
    ((onKeyDelete sampleListState).db.rows =
        sampleListState.db.rows.filter (fun r => r.id ≠ some 2) ∧
      (onKeyDelete sampleListState).items =
        (onKeyDelete sampleListState).db.list_characters ∧
      ∀ r ∈ (onKeyDelete sampleListState).items, r.id ≠ some 2) :=
  ⟨(onKeyDelete_spec sampleListState (Or.inl (by decide))).1,
   (onKeyDelete_spec sampleListState (Or.inl (by decide))).2 sampleB
     (by decide) 2 (by decide)⟩

lemma any_skill_iff (inp : Str) :
    (all_skills.any (fun p => p.1 = inp)) = true ↔
      inp ∈ all_skills.map Prod.fst := by
  simp only [List.any_eq_true, List.mem_map, decide_eq_true_eq]

lemma any_abbrev_iff (inp : Str) :
    (abilityAbbrevs.any (fun a => a = inp)) = true ↔ inp ∈ abilityAbbrevs := by
  simp only [List.any_eq_true, decide_eq_true_eq]
  exact ⟨fun ⟨a, ha, h⟩ => h ▸ ha, fun h => ⟨inp, h, rfl⟩⟩

/-- C2: Enter in Roll mode interprets the trimmed lowercased input with a
selected character in priority order dice spec (modifier 0) / skill-catalog
name (1d20 + skill modifier, "check" label) / ability abbreviation
(1d20 + ability modifier, "ability" label) / plain 1d20 labelled "d20";
with an empty list it rolls a plain 1d20 under an empty name regardless of
the input; the mode returns to List in every case. -/
theorem rollEnter_spec (rng : Nat → Int → Int) (items : List Character)
    (selected : Nat) (input : Str) :
    (rollEnter rng items selected input).mode = Mode.List ∧
    all_skills.length = 18 ∧
    (items = [] →
      rollEnter rng items selected input =
        ⟨[], lower (trim input), (roll rng "1d20".data 0).1,
         (roll rng "1d20".data 0).2, Mode.List⟩) ∧
    (∀ c, items.get? selected = some c →
      (rollEnter rng items selected input).name = c.name ∧
      ((parse_dice (lower (trim input))).isSome = true →
        (rollEnter rng items selected input).desc = lower (trim input) ∧
        ((rollEnter rng items selected input).total,
          (rollEnter rng items selected input).rolls) =
          roll rng (lower (trim input)) 0) ∧
      (parse_dice (lower (trim input)) = none →
        lower (trim input) ∈ all_skills.map Prod.fst →
        (rollEnter rng items selected input).desc =
          capitalize (lower (trim input)) ++ " check".data ∧
        ((rollEnter rng items selected input).total,
          (rollEnter rng items selected input).rolls) =
          roll rng "1d20".data (skill_modifier c (lower (trim input)))) ∧
      (parse_dice (lower (trim input)) = none →
        lower (trim input) ∉ all_skills.map Prod.fst →
        lower (trim input) ∈ abilityAbbrevs →
        (rollEnter rng items selected input).desc =
          upper (lower (trim input)) ++ " ability".data ∧
        ((rollEnter rng items selected input).total,
          (rollEnter rng items selected input).rolls) =
          roll rng "1d20".data
            (ability_modifier_by_name c (lower (trim input)))) ∧
      (parse_dice (lower (trim input)) = none →
        lower (trim input) ∉ all_skills.map Prod.fst →
        lower (trim input) ∉ abilityAbbrevs →
        (rollEnter rng items selected input).desc = "d20".data ∧
        ((rollEnter rng items selected input).total,
          (rollEnter rng items selected input).rolls) =
          roll rng "1d20".data 0)) := by
  refine ⟨?_, rfl, ?_, ?_⟩
  · unfold rollEnter
    cases items.get? selected
    · rfl
    · dsimp only
      split_ifs <;> rfl
  · intro he
    subst he
    unfold rollEnter
    rw [show (([] : List Character).get? selected) = none from by simp]
    rfl
  · intro c hc
    have hfalse : ∀ hpd : parse_dice (lower (trim input)) = none,
        ¬ ((parse_dice (lower (trim input))).isSome = true) := by
      intro hpd h
      rw [hpd] at h
      exact Bool.noConfusion h
    refine ⟨?_, ?_, ?_, ?_, ?_⟩
    · simp only [rollEnter, hc]
      split_ifs <;> simp
    · intro hps
      simp only [rollEnter, hc]
      rw [if_pos hps]
      exact ⟨rfl, rfl⟩
    · intro hpd hmem
      simp only [rollEnter, hc]
      rw [if_neg (hfalse hpd), if_pos ((any_skill_iff _).mpr hmem)]
      exact ⟨rfl, rfl⟩
    · intro hpd hmem habb
      simp only [rollEnter, hc]
      rw [if_neg (hfalse hpd),
        if_neg (fun h => hmem ((any_skill_iff _).mp h)),
        if_pos ((any_abbrev_iff _).mpr habb)]
      exact ⟨rfl, rfl⟩
    · intro hpd hmem habb
      simp only [rollEnter, hc]
      rw [if_neg (hfalse hpd),
        if_neg (fun h => hmem ((any_skill_iff _).mp h)),
        if_neg (fun h => habb ((any_abbrev_iff _).mp h))]
      exact ⟨rfl, rfl⟩

theorem rollEnter_spec_witness :
    ((rollEnter constOneRng [sampleCharacter] 0 "stealth".data).desc =
        capitalize (lower (trim "stealth".data)) ++ " check".data ∧
      ((rollEnter constOneRng [sampleCharacter] 0 "stealth".data).total,
        (rollEnter constOneRng [sampleCharacter] 0 "stealth".data).rolls) =
        roll constOneRng "1d20".data
          (skill_modifier sampleCharacter (lower (trim "stealth".data)))) ∧
    (rollEnter constOneRng [sampleCharacter] 0 "stealth".data).mode =
      Mode.List :=
  ⟨((rollEnter_spec constOneRng [sampleCharacter] 0 "stealth".data).2.2.2
      sampleCharacter (by decide)).2.2.1 (by decide) (by decide),
   (rollEnter_spec constOneRng [sampleCharacter] 0 "stealth".data).1⟩

end Shito
